import Mathlib

/-!
# Tournament bracket & match lifecycle engine — verification development

A shallow embedding of the bracket-generation and match-lifecycle core of a
gaming-tournament backend, together with theorems settling the spec's claims
about it.

Embedded source modules:
* the bracket utility (`generateBracket`, `seedParticipants`,
  `generateSingleEliminationBracket`, `generateRoundRobinBracket`,
  `generateSwissBracket`, `organizeBracketRounds`, `generateNextRound`,
  `getCurrentRound`);
* the `startMatch` method of the Match model and the start route, modelled as
  an interleaved two-caller step system;
* the socket handler's room registries (`joinMatch` / `leaveMatch` /
  `joinTournament` / `disconnect`).

Modelling conventions: Mongo object ids are `Nat`; a created Match's `_id` is
identified with its `matchNumber` (both are unique per tournament run);
JavaScript `undefined` is `Option.none`; a JS runtime `TypeError` surfaces as
an error value; wall-clock fields (`scheduledAt`, `startedAt`) are outside the
model except where a write to them is counted.  Randomness (`Math.random`) is
abstracted as an explicit shuffle parameter.  `Array.prototype.sort` with a
consistent comparator is modelled as the stable ascending sort by the
comparator's key, which ECMAScript 2019+ mandates extensionally.
-/

namespace TournamentEngine

/-! ## Data model -/

/-- Participant confirmation status (tournament participant subdocument). -/
inductive PStatus
  | registered
  | confirmed
  | disqualified
  | withdrawn
deriving DecidableEq, Repr

/-- A tournament participant: user reference, optional explicit seed,
confirmation status. -/
structure TParticipant where
  user : Nat
  seed : Option Nat
  status : PStatus
deriving DecidableEq, Repr

/-- Bracket position label.  The source stores a string: `.R r i` stands for
`R<r>-M<i>`, `.RR k` for `RR-M<k>`, `.S r i` for `S<r>-M<i>`.  The string is
determined by the constructor and its arguments, so label equality is
equality of this structured value. -/
inductive BPos
  | R (round idx : Nat)
  | RR (idx : Nat)
  | S (round idx : Nat)
deriving DecidableEq, Repr

/-- Match status enum of the Match schema. -/
inductive MStatus
  | scheduled
  | ready
  | ongoing
  | paused
  | completed
  | cancelled
  | disputed
deriving DecidableEq, Repr

/-- A Match participant subdocument as written by the bracket builders:
`user` and `seed` are exactly the JS values passed to `Match.create`, either
of which may be `undefined` (`none`). -/
structure MatchParticipant where
  user : Option Nat
  seed : Option Nat
deriving DecidableEq, Repr

/-- A persisted Match record (the fields the bracket/progression logic reads
or writes). -/
structure Match where
  tournament : Nat
  matchNumber : Nat
  round : Nat
  bracketPosition : BPos
  participants : List MatchParticipant
  status : MStatus
  winner : Option Nat
deriving DecidableEq, Repr

/-- A round entry of `tournament.bracket.rounds`. -/
structure Round where
  roundNumber : Nat
  matchIds : List Nat
deriving DecidableEq, Repr

/-- Bracket format enum. -/
inductive BracketType
  | single_elimination
  | double_elimination
  | round_robin
  | swiss
deriving DecidableEq, Repr

/-- The tournament fields bracket generation touches. -/
structure Tournament where
  id : Nat
  participants : List TParticipant
  bracketType : BracketType
  rounds : List Round
deriving DecidableEq, Repr

/-! ## Seeding (`seedParticipants`) -/

/-- JS truthiness of the `seed` field: `p.seed` is truthy iff present and
nonzero. -/
def seedTruthy : Option Nat → Bool
  | some s => s != 0
  | none => false

/-- The comparator key `a.seed || 999`: a falsy seed (absent or `0`) is
replaced by `999`. -/
def seedKey (p : TParticipant) : Nat :=
  match p.seed with
  | some 0 => 999
  | some (s + 1) => s + 1
  | none => 999

/-- Comparator order of `(a, b) => (a.seed || 999) - (b.seed || 999)`. -/
def seedLe (a b : TParticipant) : Prop := seedKey a ≤ seedKey b

instance : DecidableRel seedLe := fun a b => Nat.decLe (seedKey a) (seedKey b)

instance : IsTotal TParticipant seedLe := ⟨fun a b => Nat.le_total (seedKey a) (seedKey b)⟩

instance : IsTrans TParticipant seedLe := ⟨fun _ _ _ h h' => Nat.le_trans h h'⟩

/-- Source `seedParticipants`: if any participant carries a (truthy) seed, sort by
`(a.seed || 999) - (b.seed || 999)` (stable ascending by `seedKey`); otherwise
Fisher–Yates shuffle — abstracted as the `shuffle` parameter — and assign
seeds `1..N` by position. -/
def seedParticipants (shuffle : List TParticipant → List TParticipant)
    (participants : List TParticipant) : List TParticipant :=
  if participants.any (fun p => seedTruthy p.seed) then
    List.insertionSort seedLe participants
  else
    (shuffle participants).enum.map (fun x => { x.2 with seed := some (x.1 + 1) })

/-! ## Single elimination (`generateSingleEliminationBracket`) -/

/-- A value of the builder's `currentParticipants` array: a seeded participant
object, a synthetic `{ bye: true, seed }` marker, or a
`{ matchId, round }` reference pushed after creating a match. -/
inductive Slot
  | player (user : Nat) (seed : Option Nat)
  | bye (seed : Nat)
  | ref (matchId round : Nat)
deriving DecidableEq, Repr

/-- Truthiness of `slot.bye`. -/
def Slot.isBye : Slot → Bool
  | .bye _ => true
  | _ => false

/-- The JS property access `slot.user` (`undefined` off a player). -/
def Slot.userF : Slot → Option Nat
  | .player u _ => some u
  | _ => none

/-- The JS property access `slot.seed` (`undefined` off a player or bye). -/
def Slot.seedF : Slot → Option Nat
  | .player _ s => s
  | .bye s => some s
  | .ref _ _ => none

/-- One round of the builder's pairing loop (`for i += 2`), carrying the
match-number counter `mn` and the 0-based pair index `pi`.  Returns the
matches created this round (even when the loop then faults) and either the
next round's slot list with the updated counter, or the JS `TypeError` raised
when the loop reads `participant2.bye` off `undefined` (odd-length slot
list). -/
def seRound (tid r : Nat) : Nat → Nat → List Slot → List Match × Except String (List Slot × Nat)
  | mn, _, [] => ([], .ok ([], mn))
  | _, _, [_] =>
    ([], .error "TypeError: cannot read bye of undefined")
  | mn, pi, p1 :: p2 :: rest =>
    if p1.isBye && p2.isBye then
      seRound tid r mn (pi + 1) rest
    else if p1.isBye || p2.isBye then
      let adv := if p1.isBye then p2 else p1
      let out := seRound tid r mn (pi + 1) rest
      (out.1,
        match out.2 with
        | .error e => .error e
        | .ok (next, mn') => .ok (adv :: next, mn'))
    else
      let m : Match :=
        { tournament := tid, matchNumber := mn, round := r,
          bracketPosition := .R r (pi + 1),
          participants := [⟨p1.userF, p1.seedF⟩, ⟨p2.userF, p2.seedF⟩],
          status := .scheduled, winner := none }
      let out := seRound tid r (mn + 1) (pi + 1) rest
      (m :: out.1,
        match out.2 with
        | .error e => .error e
        | .ok (next, mn') => .ok (.ref mn r :: next, mn'))

/-- The builder's `while (currentParticipants.length > 1)` loop.  The slot
list shrinks every iteration, so `fuel` bounds the iteration count; the
builder supplies `fuel` no smaller than the slot-list length, which the loop
never exhausts (`seLoop_no_fuel_exhaustion`). -/
def seLoop (tid : Nat) : Nat → Nat → Nat → List Slot → List Match × Option String
  | 0, _, _, slots =>
    if slots.length > 1 then ([], some "loop fuel exhausted") else ([], none)
  | fuel + 1, r, mn, slots =>
    if slots.length > 1 then
      let out := seRound tid r mn 0 slots
      match out.2 with
      | .error e => (out.1, some e)
      | .ok p =>
        let rest := seLoop tid fuel (r + 1) p.2 p.1
        (out.1 ++ rest.1, rest.2)
    else ([], none)

/-- Least power of two that is at least `n` (for `n ≥ 1`): the exact value of
`Math.pow(2, Math.ceil(Math.log2(n)))`. -/
def np2go (n : Nat) : Nat → Nat → Nat
  | 0, acc => acc
  | fuel + 1, acc => if n ≤ acc then acc else np2go n fuel (acc * 2)

/-- Source `nextPowerOf2` of the builder. -/
def nextPow2 (n : Nat) : Nat := np2go n n 1

/-- Source `generateSingleEliminationBracket`: pad the seeded participants with byes
seeded `N+1, N+2, …` up to the next power of two, then run the pairing loop.
Returns the created matches and `some e` when the run raised `e`. -/
def generateSingleEliminationBracket (tid : Nat) (participants : List TParticipant) :
    List Match × Option String :=
  let byesNeeded := nextPow2 participants.length - participants.length
  let slots :=
    participants.map (fun p => Slot.player p.user p.seed) ++
      (List.range byesNeeded).map (fun i => Slot.bye (participants.length + i + 1))
  seLoop tid (participants.length + byesNeeded) 1 1 slots

/-- Source `generateDoubleEliminationBracket` falls back to single elimination
(documented limitation in the source). -/
def generateDoubleEliminationBracket (tid : Nat) (participants : List TParticipant) :
    List Match × Option String :=
  generateSingleEliminationBracket tid participants

/-! ## Round robin (`generateRoundRobinBracket`) -/

/-- The nested `for i / for j = i+1` enumeration: every unordered pair of
participants, in lexicographic index order. -/
def rrPairs : List TParticipant → List (TParticipant × TParticipant)
  | [] => []
  | p :: rest => (rest.map (fun q => (p, q))) ++ rrPairs rest

/-- The value `Math.ceil(n / 2)` for a natural `n`. -/
def ceilHalf (n : Nat) : Nat := (n + 1) / 2

/-- The round-robin creation loop, threading the match-number counter `mn`
and current `round`; after each creation the round advances when
`matchNumber % ceil(n/2) === 1` (with `matchNumber` already incremented).
The label `RR-M<matchNumber - 1>` evaluates to `.RR mn`. -/
def rrLoop (tid n : Nat) : Nat → Nat → List (TParticipant × TParticipant) → List Match
  | _, _, [] => []
  | mn, rnd, (a, b) :: rest =>
    { tournament := tid, matchNumber := mn, round := rnd,
      bracketPosition := .RR mn,
      participants := [⟨some a.user, a.seed⟩, ⟨some b.user, b.seed⟩],
      status := .scheduled, winner := none } ::
      rrLoop tid n (mn + 1) (if (mn + 1) % ceilHalf n == 1 then rnd + 1 else rnd) rest

/-- Source `generateRoundRobinBracket`. -/
def generateRoundRobinBracket (tid : Nat) (participants : List TParticipant) : List Match :=
  rrLoop tid participants.length 1 1 (rrPairs participants)

/-! ## Swiss first round (`generateSwissBracket`) -/

/-- The Swiss first-round pairing loop: adjacent pairs of the shuffled list,
dropping an odd trailing participant (`i + 1 < length` guard); `round` is
constantly 1 and the label is `S1-M<pair index + 1>`. -/
def swissLoop (tid : Nat) : Nat → Nat → List TParticipant → List Match
  | _, _, [] => []
  | _, _, [_] => []
  | mn, pi, a :: b :: rest =>
    { tournament := tid, matchNumber := mn, round := 1,
      bracketPosition := .S 1 (pi + 1),
      participants := [⟨some a.user, a.seed⟩, ⟨some b.user, b.seed⟩],
      status := .scheduled, winner := none } ::
      swissLoop tid (mn + 1) (pi + 1) rest

/-- Source `generateSwissBracket`: the `[...participants].sort(() => Math.random() -
0.5)` shuffle is abstracted as `shuffle2`. -/
def generateSwissBracket (tid : Nat) (shuffle2 : List TParticipant → List TParticipant)
    (participants : List TParticipant) : List Match :=
  swissLoop tid 1 0 (shuffle2 participants)

/-! ## Organizing rounds and `generateBracket` -/

/-- Comparator order of `(a, b) => a.roundNumber - b.roundNumber`. -/
def roundLe (a b : Round) : Prop := a.roundNumber ≤ b.roundNumber

instance : DecidableRel roundLe := fun a b => Nat.decLe a.roundNumber b.roundNumber

/-- Source `organizeBracketRounds`: group matches by round number (insertion-ordered
map keyed by first occurrence), then sort the groups ascending by round
number. -/
def organizeBracketRounds (ms : List Match) : List Round :=
  let rnums := (ms.map (fun m => m.round)).eraseDups
  let unsorted := rnums.map (fun rn =>
    { roundNumber := rn,
      matchIds := (ms.filter (fun m => m.round == rn)).map (fun m => m.matchNumber) })
  List.insertionSort roundLe unsorted

/-- The observable effect of one `generateBracket` call: the `Match.create`
writes that happened (in order, even when the call then fails), the rounds
structure written to the tournament by `tournament.save()` (`none` when the
save was never reached), and the returned value or raised error. -/
structure GenEffect where
  created : List Match
  savedRounds : Option (List Round)
  result : Except String (List Match × List Round)
deriving Repr

/-- Source `generateBracket`: filter confirmed participants, fail below 2, seed, and
dispatch on the bracket type.  `shuffle` abstracts the Fisher–Yates shuffle of
`seedParticipants`; `shuffle2` the Swiss random sort. -/
def generateBracket (shuffle shuffle2 : List TParticipant → List TParticipant)
    (t : Tournament) : GenEffect :=
  let confirmedParticipants := t.participants.filter (fun p => p.status == PStatus.confirmed)
  if confirmedParticipants.length < 2 then
    { created := [], savedRounds := none,
      result := .error "At least 2 confirmed participants required to generate bracket" }
  else
    let seeded := seedParticipants shuffle confirmedParticipants
    let out :=
      match t.bracketType with
      | .single_elimination => generateSingleEliminationBracket t.id seeded
      | .double_elimination => generateDoubleEliminationBracket t.id seeded
      | .round_robin => (generateRoundRobinBracket t.id seeded, none)
      | .swiss => (generateSwissBracket t.id shuffle2 seeded, none)
    match out.2 with
    | some e => { created := out.1, savedRounds := none, result := .error e }
    | none =>
      let rounds := organizeBracketRounds out.1
      { created := out.1, savedRounds := some rounds, result := .ok (out.1, rounds) }

/-! ## Round progression (`generateNextRound`, `getCurrentRound`) -/

/-- Source `getCurrentRound`: the round of `findOne` sorted by `round` descending —
the maximum round among the tournament's matches — or 1 when there are
none. -/
def getCurrentRound (tid : Nat) (db : List Match) : Nat :=
  match db.filter (fun m => m.tournament == tid) with
  | [] => 1
  | tdb => (tdb.map (fun m => m.round)).foldl max 0

/-- The value `Math.min(...match.participants.map(p => p.seed))`: `none` models the
non-numeric outcomes — `NaN` when some seed is `undefined`, `Infinity` when
the participant list is empty. -/
def minSeed (ps : List MatchParticipant) : Option Nat :=
  match ps.mapM (fun p => p.seed) with
  | none => none
  | some [] => none
  | some (s :: ss) => some (ss.foldl min s)

/-- A winner entry collected for the next round: the populated winner's id
and `Math.min` of the completed match's participant seeds. -/
structure WinnerSlot where
  user : Nat
  seed : Option Nat
deriving DecidableEq, Repr

/-- The collection `completedMatches.filter(m => m.winner).map(...)` over the completed
matches of round `cur`, in stored order. -/
def collectWinners (tdb : List Match) (cur : Nat) : List WinnerSlot :=
  (tdb.filter (fun m => m.round == cur && m.status == MStatus.completed)).filterMap
    (fun m => m.winner.map (fun w => { user := w, seed := minSeed m.participants }))

/-- The progression pairing loop (`for i += 2` with `i + 1 < winners.length`
guard): adjacent winners in list order; an odd trailing winner creates no
match. -/
def progLoop (tid rnd : Nat) : Nat → Nat → List WinnerSlot → List Match
  | _, _, [] => []
  | _, _, [_] => []
  | mn, pi, w1 :: w2 :: rest =>
    { tournament := tid, matchNumber := mn, round := rnd,
      bracketPosition := .R rnd (pi + 1),
      participants := [⟨some w1.user, w1.seed⟩, ⟨some w2.user, w2.seed⟩],
      status := .scheduled, winner := none } ::
      progLoop tid rnd (mn + 1) (pi + 1) rest

/-- Outcome of a successful `generateNextRound` call. -/
inductive ProgressOutcome
  | complete (winner : Option WinnerSlot)
  | nextRound (ms : List Match)
deriving DecidableEq, Repr

/-- Source `generateNextRound` over the stored match list `db`: determine the
current (maximum) round, fail unless every match of that round is completed,
collect winners, and either report completion (fewer than 2 winners) or
create the next round's matches, numbering on from
`countDocuments({tournament}) + 1`.  The first component is the list of
`Match.create` writes (empty on failure). -/
def generateNextRound (tid : Nat) (db : List Match) :
    List Match × Except String ProgressOutcome :=
  let tdb := db.filter (fun m => m.tournament == tid)
  let currentRound := getCurrentRound tid db
  let completedMatches :=
    tdb.filter (fun m => m.round == currentRound && m.status == MStatus.completed)
  let totalCurrentRoundMatches := (tdb.filter (fun m => m.round == currentRound)).length
  if completedMatches.length != totalCurrentRoundMatches then
    ([], .error "Not all matches in current round are completed")
  else
    let winners := collectWinners tdb currentRound
    if winners.length < 2 then
      ([], Except.ok (ProgressOutcome.complete winners.head?))
    else
      let ms := progLoop tid (currentRound + 1) (tdb.length + 1) 0 winners
      (ms, Except.ok (ProgressOutcome.nextRound ms))

/-! ## Match start under concurrency (start route + `startMatch` method)

The start route loads the match (`await Match.findById`), checks permissions,
and calls `match.startMatch()`, which synchronously checks
`this.status !== 'ready'` and `!this.allParticipantsReady` on the loaded
snapshot, mutates it, and saves.  The save issues an unconditional update
(`$set` of `status`/`startedAt`, `$push` of the system chat entry): no
conditional filter on the expected prior state and no per-match lock.  Two
concurrent callers are modelled as a step system whose atomic steps are the
await boundaries: a `load` step copies the stored document into the caller's
local snapshot, and a `commit` step runs the `startMatch` checks on that
snapshot and, when they pass, applies the writes to the store. -/

/-- Per-participant readiness status inside a live match document. -/
inductive ReadyStatus
  | ready
  | not_ready
  | disconnected
  | disqualified
deriving DecidableEq, Repr

/-- The fields of a match document the start transition reads or writes.
`startWrites` counts how many times `startedAt` has been written and
`systemChat` how many system chat entries were appended, making a double
start observable. -/
structure LiveMatch where
  status : MStatus
  participantStatus : List ReadyStatus
  startWrites : Nat
  systemChat : Nat
deriving DecidableEq, Repr

/-- The `allParticipantsReady` virtual: a nonempty participant list in which
every participant is `ready`. -/
def allParticipantsReady (m : LiveMatch) : Bool :=
  decide (m.participantStatus.length > 0) && m.participantStatus.all (fun s => s == .ready)

/-- The guard sequence of `matchSchema.methods.startMatch`, evaluated on the
caller's loaded snapshot. -/
def startMatchCheck (m : LiveMatch) : Except String Unit :=
  if m.status != MStatus.ready then Except.error "Match is not ready to start"
  else if !allParticipantsReady m then Except.error "Not all participants are ready"
  else Except.ok ()

/-- The writes `startMatch` commits through `save()`: set `status` to
`ongoing`, write `startedAt`, append the system chat entry — applied to the
stored document unconditionally. -/
def applyStartWrites (db : LiveMatch) : LiveMatch :=
  { db with status := .ongoing, startWrites := db.startWrites + 1,
            systemChat := db.systemChat + 1 }

instance : DecidableEq (Except String Unit) := fun a b =>
  match a, b with
  | .ok (), .ok () => isTrue rfl
  | .error e, .error f =>
    if h : e = f then isTrue (by rw [h]) else isFalse (by intro c; injection c; contradiction)
  | .ok _, .error _ => isFalse (fun h => Except.noConfusion h)
  | .error _, .ok _ => isFalse (fun h => Except.noConfusion h)

/-- One caller's progress through the start route: its loaded snapshot (if
the `findById` step ran) and its response (if it finished). -/
structure CallerState where
  loaded : Option LiveMatch
  result : Option (Except String Unit)
deriving DecidableEq, Repr

/-- Run the caller's next await-delimited step against the store. -/
def callerStep (db : LiveMatch) (c : CallerState) : LiveMatch × CallerState :=
  match c.loaded, c.result with
  | none, _ => (db, { c with loaded := some db })
  | some loc, none =>
    match startMatchCheck loc with
    | .error e => (db, { c with result := some (.error e) })
    | .ok () => (applyStartWrites db, { c with result := some (.ok ()) })
  | some _, some _ => (db, c)

/-- Two concurrent start calls on the same stored match. -/
structure StartRace where
  db : LiveMatch
  c1 : CallerState
  c2 : CallerState
deriving DecidableEq, Repr

/-- Interleaving step: `true` advances caller 1, `false` caller 2. -/
def raceStep (s : StartRace) (who : Bool) : StartRace :=
  if who then
    let out := callerStep s.db s.c1
    { s with db := out.1, c1 := out.2 }
  else
    let out := callerStep s.db s.c2
    { s with db := out.1, c2 := out.2 }

/-- Run a schedule of interleaved steps. -/
def runRace (s : StartRace) (sched : List Bool) : StartRace :=
  sched.foldl raceStep s

/-- A `ready` match with both participants `ready` and two callers that have
not yet run any step. -/
def readyStartRace : StartRace :=
  { db := { status := .ready, participantStatus := [.ready, .ready],
            startWrites := 0, systemChat := 0 },
    c1 := { loaded := none, result := none },
    c2 := { loaded := none, result := none } }

/-! ## Socket room registries (`socketHandler.js`)

`matchRooms` and `tournamentRooms` are insertion-ordered maps from room id to
a set of user ids, modelled as association lists with duplicate-free member
lists.  `joinMatch`/`joinTournament` create the entry if missing and add the
session's user; `leaveMatch` removes the user and deletes the entry when it
becomes empty; `disconnect` removes the user from every room, deleting
entries that become empty. -/

/-- The lookup `rooms.get(g)` followed by reading the member set (`[]` when absent). -/
def roomMembers (rooms : List (Nat × List Nat)) (g : Nat) : List Nat :=
  match rooms.find? (fun e => e.1 == g) with
  | some e => e.2
  | none => []

/-- JS `Set.prototype.add`: append the user if not already a member. -/
def setAdd (s : List Nat) (u : Nat) : List Nat :=
  if u ∈ s then s else s ++ [u]

/-- Replace the value of the first entry keyed `g` (JS `Map` holds one entry
per key). -/
def updateRoom : List (Nat × List Nat) → Nat → List Nat → List (Nat × List Nat)
  | [], _, _ => []
  | (k, v) :: rest, g, v' =>
    if k == g then (k, v') :: rest else (k, v) :: updateRoom rest g v'

/-- Delete the first entry keyed `g` (JS `Map.prototype.delete`). -/
def deleteRoom : List (Nat × List Nat) → Nat → List (Nat × List Nat)
  | [], _ => []
  | (k, v) :: rest, g =>
    if k == g then rest else (k, v) :: deleteRoom rest g

/-- The `joinMatch`/`joinTournament` registry mutation: create the entry when
missing, then `add` the user to its set. -/
def joinRoom (rooms : List (Nat × List Nat)) (g u : Nat) : List (Nat × List Nat) :=
  match rooms.find? (fun e => e.1 == g) with
  | some e => updateRoom rooms g (setAdd e.2 u)
  | none => rooms ++ [(g, [u])]

/-- The `leaveMatch` registry mutation: when the entry exists, delete the
user from its set and drop the entry if the set became empty. -/
def leaveRoom (rooms : List (Nat × List Nat)) (g u : Nat) : List (Nat × List Nat) :=
  match rooms.find? (fun e => e.1 == g) with
  | some e =>
    let v' := e.2.erase u
    if v' = [] then deleteRoom rooms g else updateRoom rooms g v'
  | none => rooms

/-- The `disconnect` sweep over one registry: for every room containing the
user, remove the user and drop the room if it became empty. -/
def disconnectRooms (rooms : List (Nat × List Nat)) (u : Nat) : List (Nat × List Nat) :=
  rooms.filterMap (fun e =>
    if u ∈ e.2 then
      let v' := e.2.erase u
      if v' = [] then none else some (e.1, v')
    else some e)

/-- Both registries of the socket handler. -/
structure Registry where
  matchRooms : List (Nat × List Nat)
  tournamentRooms : List (Nat × List Nat)
deriving DecidableEq, Repr

/-- The registry-mutating socket events. -/
inductive SocketEvent
  | joinMatch (u mid : Nat)
  | leaveMatch (u mid : Nat)
  | joinTournament (u tid : Nat)
  | disconnect (u : Nat)
deriving DecidableEq, Repr

/-- Apply one socket event's registry mutation. -/
def stepEvent (r : Registry) : SocketEvent → Registry
  | .joinMatch u mid => { r with matchRooms := joinRoom r.matchRooms mid u }
  | .leaveMatch u mid => { r with matchRooms := leaveRoom r.matchRooms mid u }
  | .joinTournament u tid => { r with tournamentRooms := joinRoom r.tournamentRooms tid u }
  | .disconnect u =>
    { matchRooms := disconnectRooms r.matchRooms u,
      tournamentRooms := disconnectRooms r.tournamentRooms u }

/-- The module-level registries start empty. -/
def initRegistry : Registry := { matchRooms := [], tournamentRooms := [] }

/-- Run a sequence of socket events from the empty registries. -/
def runEvents (evs : List SocketEvent) : Registry :=
  evs.foldl stepEvent initRegistry

/-- No room entry has an empty member set. -/
def noEmptyRooms (rooms : List (Nat × List Nat)) : Prop :=
  ∀ e ∈ rooms, e.2 ≠ []

/-- The registry invariant of claim C10: both maps retain no empty group. -/
def registryInv (r : Registry) : Prop :=
  noEmptyRooms r.matchRooms ∧ noEmptyRooms r.tournamentRooms

/-! ## Derived predicates and concrete instances used by the claims -/

/-- A confirmed participant with user id `u` and optional explicit seed. -/
def confirmedP (u : Nat) (s : Option Nat) : TParticipant := ⟨u, s, .confirmed⟩

/-- Whether a label has the `R<round>-M<index>` form. -/
def isRLabel : BPos → Bool
  | .R _ _ => true
  | _ => false

/-- Label/round consistency: an `R<r>-M<i>` label implies the match's own
round is `r`.  Every match the builders or the progression create satisfies
this. -/
def labelRoundOk (m : Match) : Bool :=
  match m.bracketPosition with
  | .R r _ => m.round == r
  | _ => true

/-- Two matches share a (defined) participant user reference. -/
def sharesUser (a b : Match) : Bool :=
  a.participants.any (fun p => p.user.isSome && b.participants.any (fun q => p.user == q.user))

/-- Adjacent pairing of a list, dropping an odd trailing element. -/
def adjacentPairs {α : Type} : List α → List (α × α)
  | a :: b :: rest => (a, b) :: adjacentPairs rest
  | _ => []

/-- Ascending-seed order on collected winners (seeds are present on the
inputs this is applied to; an absent seed counts as 0). -/
def winnerSeedLe (a b : WinnerSlot) : Prop := a.seed.getD 0 ≤ b.seed.getD 0

instance : DecidableRel winnerSeedLe := fun a b => Nat.decLe (a.seed.getD 0) (b.seed.getD 0)

/-- Modelled from the spec: "pair winners by ascending seed (lowest remaining
seed paired with the next-lowest, standard bracket convention)" — sort the
collected winners ascending by seed, then pair adjacently.  Defined only to
compare against what `generateNextRound` actually does. -/
def specSeedOrderedPairs (ws : List WinnerSlot) : List (WinnerSlot × WinnerSlot) :=
  adjacentPairs (List.insertionSort winnerSeedLe ws)

/-- Five confirmed participants, seeded 1–5. -/
def fiveParticipants : List TParticipant :=
  [confirmedP 1 (some 1), confirmedP 2 (some 2), confirmedP 3 (some 3),
   confirmedP 4 (some 4), confirmedP 5 (some 5)]

/-- Three confirmed participants, seeded 1–3. -/
def threeParticipants : List TParticipant :=
  [confirmedP 1 (some 1), confirmedP 2 (some 2), confirmedP 3 (some 3)]

/-- Two confirmed participants, seeded 1–2. -/
def twoParticipants : List TParticipant :=
  [confirmedP 1 (some 1), confirmedP 2 (some 2)]

/-- One participant with the explicit seed 1000 ahead of one with no seed. -/
def bigSeedParticipants : List TParticipant :=
  [confirmedP 1 (some 1000), confirmedP 2 none]

/-- A completed round-1 match of tournament 0 with two seeded participants
and a winner. -/
def completedMatch (mn s1 s2 u1 u2 w : Nat) : Match :=
  { tournament := 0, matchNumber := mn, round := 1, bracketPosition := .R 1 mn,
    participants := [⟨some u1, some s1⟩, ⟨some u2, some s2⟩],
    status := .completed, winner := some w }

/-- Four completed round-1 matches whose stored order has per-match minimum
seeds 1, 5, 3, 7 — not ascending. -/
def storedRound : List Match :=
  [completedMatch 1 1 8 11 12 11, completedMatch 2 5 6 21 22 21,
   completedMatch 3 3 4 31 32 31, completedMatch 4 7 9 41 42 41]

/-- A tournament with a single confirmed participant. -/
def soloTournament : Tournament :=
  { id := 0, participants := [confirmedP 1 none, ⟨2, none, .registered⟩],
    bracketType := .single_elimination, rounds := [] }

/-- A stored round in which one match is still ongoing. -/
def unfinishedRound : List Match :=
  [completedMatch 1 1 4 11 12 11,
   { completedMatch 2 2 3 21 22 21 with status := .ongoing, winner := none }]

/-- The still-ongoing match of `unfinishedRound`. -/
def ongoingMatch : Match :=
  { completedMatch 2 2 3 21 22 21 with status := .ongoing, winner := none }

/-- A small populated registry: room 5 holds users 1 and 2, room 7 holds
user 3. -/
def demoRooms : List (Nat × List Nat) := [(5, [1, 2]), (7, [3])]

/-- The first match progression creates from `storedRound`: winners 11 and 21
paired in stored order, numbered on from the 4 existing matches. -/
def nextRoundHeadMatch : Match :=
  { tournament := 0, matchNumber := 5, round := 2, bracketPosition := .R 2 1,
    participants := [⟨some 11, some 1⟩, ⟨some 21, some 5⟩],
    status := .scheduled, winner := none }

/-! ## Seeding (claim C4) -/

/-- C4 counterexample: on a list holding an explicit seed of 1000 and a
missing seed, `seedParticipants` puts the missing-seed participant FIRST —
the comparator substitutes 999, not +∞, for a missing seed, so the claim
"participants whose seed is missing are placed after every explicitly seeded
participant" is false as stated. -/
theorem seedParticipants_big_seed_counterexample :
    seedParticipants (fun l => l) bigSeedParticipants =
      [confirmedP 2 none, confirmedP 1 (some 1000)] ∧
    ¬ List.Pairwise (fun a b => seedTruthy b.seed = true → seedTruthy a.seed = true)
        (seedParticipants (fun l => l) bigSeedParticipants) := by
  refine ⟨by decide, ?_⟩
  decide

/-- C4 (amended): when at least one participant carries a (truthy) explicit
seed, `seedParticipants` returns a permutation of the input that is sorted
ascending by the effective key `seed || 999` — a missing seed is treated as
999, not +∞, so explicitly seeded participants precede missing-seed ones only
while their seeds are below 999. -/
theorem seedParticipants_sorted_by_seedKey
    (shuffle : List TParticipant → List TParticipant) (ps : List TParticipant)
    (h : ps.any (fun p => seedTruthy p.seed) = true) :
    (seedParticipants shuffle ps).Perm ps ∧
    List.Sorted seedLe (seedParticipants shuffle ps) := by
  unfold seedParticipants
  rw [if_pos h]
  exact ⟨List.perm_insertionSort seedLe ps, List.sorted_insertionSort seedLe ps⟩

/-- C4 witness: the amended theorem at a concrete two-participant list. -/
theorem seedParticipants_sorted_by_seedKey_witness :
    (twoParticipants.any (fun p => seedTruthy p.seed) = true) ∧
    ((seedParticipants (fun l => l) twoParticipants).Perm twoParticipants ∧
      List.Sorted seedLe (seedParticipants (fun l => l) twoParticipants)) :=
  ⟨by decide, seedParticipants_sorted_by_seedKey (fun l => l) twoParticipants (by decide)⟩

/-! ## Round robin (claim C2) -/

theorem rrLoop_participants (tid n : Nat) :
    ∀ (prs : List (TParticipant × TParticipant)) (mn rnd : Nat),
      (rrLoop tid n mn rnd prs).map (fun m => m.participants) =
        prs.map (fun q => [⟨some q.1.user, q.1.seed⟩, ⟨some q.2.user, q.2.seed⟩])
  | [], _, _ => rfl
  | (a, b) :: rest, mn, rnd => by
    simp only [rrLoop, List.map_cons, List.cons.injEq, true_and]
    exact rrLoop_participants tid n rest (mn + 1) _

theorem rrLoop_length (tid n : Nat) :
    ∀ (prs : List (TParticipant × TParticipant)) (mn rnd : Nat),
      (rrLoop tid n mn rnd prs).length = prs.length
  | [], _, _ => rfl
  | (_, _) :: rest, mn, rnd => by
    simp only [rrLoop, List.length_cons]
    exact congrArg (· + 1) (rrLoop_length tid n rest (mn + 1) _)

theorem rrPairs_twice_length :
    ∀ l : List TParticipant, 2 * (rrPairs l).length + l.length = l.length * l.length
  | [] => rfl
  | p :: rest => by
    have ih := rrPairs_twice_length rest
    simp only [rrPairs, List.length_append, List.length_map, List.length_cons]
    ring_nf
    ring_nf at ih
    omega

/-- C2 (amended): round-robin generation over `ps` creates exactly
`N*(N-1)/2` matches, one per unordered pair of participants in lexicographic
order (`rrPairs`).  The dropped conjunct — that no participant appears twice
in the same round — is refuted by `roundRobin_same_round_repeat`. -/
theorem roundRobin_match_count_and_pairs (tid : Nat) (ps : List TParticipant) :
    (generateRoundRobinBracket tid ps).length = ps.length * (ps.length - 1) / 2 ∧
    (generateRoundRobinBracket tid ps).map (fun m => m.participants) =
      (rrPairs ps).map (fun q => [⟨some q.1.user, q.1.seed⟩, ⟨some q.2.user, q.2.seed⟩]) := by
  constructor
  · have h1 := rrLoop_length tid ps.length (rrPairs ps) 1 1
    have h2 := rrPairs_twice_length ps
    unfold generateRoundRobinBracket
    rw [h1]
    have h3 : ps.length * (ps.length - 1) = ps.length * ps.length - ps.length := by
      cases ps.length with
      | zero => rfl
      | succ k => simp [Nat.succ_mul, Nat.mul_succ]
    omega
  · exact rrLoop_participants tid ps.length (rrPairs ps) 1 1

/-- C2 counterexample: for three participants the first two generated matches
are both assigned round 1 and both contain participant 1, so "no participant
appears in two Matches assigned the same round number" is false as stated. -/
theorem roundRobin_same_round_repeat :
    ¬ List.Pairwise (fun a b => a.round = b.round → sharesUser a b = false)
        (generateRoundRobinBracket 0 threeParticipants) := by
  decide

/-! ## Single elimination (claims C1 and C7) -/

/-- C1: for five confirmed participants the single-elimination builder does
not succeed with `N - 1 = 4` matches — the two padded byes pair with each
other and are dropped, the round-1 output has odd length 3, and the next
pass reads `.bye` off the `undefined` slot beyond the end of the array.  The
run creates 3 matches (two genuine round-1 matches and a round-2 match of
two match references with undefined users) and then faults. -/
theorem singleElim_five_participants_fault :
    (generateSingleEliminationBracket 0 fiveParticipants).2 =
      some "TypeError: cannot read bye of undefined" ∧
    (generateSingleEliminationBracket 0 fiveParticipants).1.length = 3 := by
  exact ⟨rfl, rfl⟩

theorem seRound_error_msg (tid r : Nat) (mn pi : Nat) (slots : List Slot) :
    ∀ e, (seRound tid r mn pi slots).2 = Except.error e →
      e = "TypeError: cannot read bye of undefined" := by
  induction mn, pi, slots using seRound.induct tid r with
  | case1 mn x =>
    intro e h
    simp [seRound] at h
  | case2 x x' head =>
    intro e h
    simp only [seRound, Except.error.injEq] at h
    exact h.symm
  | case3 mn pi p1 p2 rest h1 ih =>
    intro e h
    simp only [seRound, h1, if_true] at h
    exact ih e h
  | case4 mn pi p1 p2 rest h1 h2 ih =>
    intro e h
    simp only [seRound, h1, h2, if_true, if_false, Bool.false_eq_true] at h
    rcases hre : (seRound tid r mn (pi + 1) rest).2 with e' | p
    · rw [hre] at h
      simp only [Except.error.injEq] at h
      rw [← h]
      exact ih e' hre
    · rw [hre] at h
      simp at h
  | case5 mn pi p1 p2 rest h1 h2 ih =>
    intro e h
    simp only [seRound, h1, h2, if_false, Bool.false_eq_true] at h
    rcases hre : (seRound tid r (mn + 1) (pi + 1) rest).2 with e' | p
    · rw [hre] at h
      simp only [Except.error.injEq] at h
      rw [← h]
      exact ih e' hre
    · rw [hre] at h
      simp at h

theorem seRound_ok_length (tid r : Nat) (mn pi : Nat) (slots : List Slot) :
    ∀ next mn', (seRound tid r mn pi slots).2 = Except.ok (next, mn') →
      2 * next.length ≤ slots.length + 1 := by
  induction mn, pi, slots using seRound.induct tid r with
  | case1 mn x =>
    intro next mn' h
    simp only [seRound, Except.ok.injEq, Prod.mk.injEq] at h
    rw [← h.1]
    simp
  | case2 x x' head =>
    intro next mn' h
    simp [seRound] at h
  | case3 mn pi p1 p2 rest h1 ih =>
    intro next mn' h
    simp only [seRound, h1, if_true] at h
    have := ih next mn' h
    simp only [List.length_cons]
    omega
  | case4 mn pi p1 p2 rest h1 h2 ih =>
    intro next mn' h
    simp only [seRound, h1, h2, if_true, if_false, Bool.false_eq_true] at h
    rcases hre : (seRound tid r mn (pi + 1) rest).2 with e' | p
    · rw [hre] at h
      simp at h
    · rw [hre] at h
      simp only [Except.ok.injEq, Prod.mk.injEq] at h
      have := ih p.1 p.2 (by rw [hre])
      rw [← h.1]
      simp only [List.length_cons]
      omega
  | case5 mn pi p1 p2 rest h1 h2 ih =>
    intro next mn' h
    simp only [seRound, h1, h2, if_false, Bool.false_eq_true] at h
    rcases hre : (seRound tid r (mn + 1) (pi + 1) rest).2 with e' | p
    · rw [hre] at h
      simp at h
    · rw [hre] at h
      simp only [Except.ok.injEq, Prod.mk.injEq] at h
      have := ih p.1 p.2 (by rw [hre])
      rw [← h.1]
      simp only [List.length_cons]
      omega

/-- The builder's fuel — the padded slot-list length — is never exhausted:
the `while` loop of the source terminates within that many iterations. -/
theorem seLoop_no_fuel_exhaustion (tid : Nat) :
    ∀ (fuel r mn : Nat) (slots : List Slot), slots.length ≤ fuel →
      (seLoop tid fuel r mn slots).2 ≠ some "loop fuel exhausted" := by
  intro fuel
  induction fuel with
  | zero =>
    intro r mn slots hle
    have : slots.length = 0 := Nat.le_zero.mp hle
    simp [seLoop, this]
  | succ fuel ih =>
    intro r mn slots hle
    by_cases hlen : slots.length > 1
    · simp only [seLoop, hlen, if_true]
      rcases hre : (seRound tid r mn 0 slots).2 with e | p
      · have := seRound_error_msg tid r mn 0 slots e hre
        simp only [ne_eq, Option.some.injEq]
        rw [this]
        decide
      · have hlen2 := seRound_ok_length tid r mn 0 slots p.1 p.2 (by rw [hre])
        exact ih (r + 1) p.2 p.1 (by omega)
    · simp [seLoop, hlen]

theorem seRound_label_mem (tid r : Nat) (mn pi : Nat) (slots : List Slot) :
    ∀ m ∈ (seRound tid r mn pi slots).1,
      m.round = r ∧ ∃ i, pi < i ∧ m.bracketPosition = BPos.R r i := by
  induction mn, pi, slots using seRound.induct tid r with
  | case1 mn x =>
    intro m hm
    simp [seRound] at hm
  | case2 x x' head =>
    intro m hm
    simp [seRound] at hm
  | case3 mn pi p1 p2 rest h1 ih =>
    intro m hm
    simp only [seRound, h1, if_true] at hm
    obtain ⟨hr, i, hi, hpos⟩ := ih m hm
    exact ⟨hr, i, by omega, hpos⟩
  | case4 mn pi p1 p2 rest h1 h2 ih =>
    intro m hm
    simp only [seRound, h1, h2, if_true, if_false, Bool.false_eq_true] at hm
    obtain ⟨hr, i, hi, hpos⟩ := ih m hm
    exact ⟨hr, i, by omega, hpos⟩
  | case5 mn pi p1 p2 rest h1 h2 ih =>
    intro m hm
    simp only [seRound, h1, h2, if_false, Bool.false_eq_true, List.mem_cons] at hm
    rcases hm with rfl | hm
    · exact ⟨rfl, pi + 1, Nat.lt_succ_self pi, rfl⟩
    · obtain ⟨hr, i, hi, hpos⟩ := ih m hm
      exact ⟨hr, i, by omega, hpos⟩

theorem seRound_labels_nodup (tid r : Nat) (mn pi : Nat) (slots : List Slot) :
    ((seRound tid r mn pi slots).1.map (fun m => m.bracketPosition)).Nodup := by
  induction mn, pi, slots using seRound.induct tid r with
  | case1 mn x => simp [seRound]
  | case2 x x' head => simp [seRound]
  | case3 mn pi p1 p2 rest h1 ih =>
    simpa only [seRound, h1, if_true] using ih
  | case4 mn pi p1 p2 rest h1 h2 ih =>
    simpa only [seRound, h1, h2, if_true, if_false, Bool.false_eq_true] using ih
  | case5 mn pi p1 p2 rest h1 h2 ih =>
    simp only [seRound, h1, h2, if_false, Bool.false_eq_true, List.map_cons,
      List.nodup_cons]
    refine ⟨?_, ih⟩
    intro hmem
    rw [List.mem_map] at hmem
    obtain ⟨m, hm, hpos⟩ := hmem
    obtain ⟨_, i, hi, hpos'⟩ := seRound_label_mem tid r (mn + 1) (pi + 1) rest m hm
    rw [hpos'] at hpos
    injection hpos with _ hpos
    omega

theorem seLoop_label_mem (tid : Nat) :
    ∀ (fuel r mn : Nat) (slots : List Slot), ∀ m ∈ (seLoop tid fuel r mn slots).1,
      ∃ r' i, r ≤ r' ∧ m.round = r' ∧ m.bracketPosition = BPos.R r' i := by
  intro fuel
  induction fuel with
  | zero =>
    intro r mn slots m hm
    by_cases h : slots.length > 1 <;> simp [seLoop, h] at hm
  | succ fuel ih =>
    intro r mn slots m hm
    by_cases hlen : slots.length > 1
    · simp only [seLoop, hlen, if_true] at hm
      rcases hre : (seRound tid r mn 0 slots).2 with e | p
      · rw [hre] at hm
        simp only at hm
        obtain ⟨hr, i, _, hpos⟩ := seRound_label_mem tid r mn 0 slots m hm
        exact ⟨r, i, Nat.le_refl r, hr, hpos⟩
      · rw [hre] at hm
        simp only [List.mem_append] at hm
        rcases hm with hm | hm
        · obtain ⟨hr, i, _, hpos⟩ := seRound_label_mem tid r mn 0 slots m hm
          exact ⟨r, i, Nat.le_refl r, hr, hpos⟩
        · obtain ⟨r', i, hle, hr, hpos⟩ := ih (r + 1) p.2 p.1 m hm
          exact ⟨r', i, by omega, hr, hpos⟩
    · simp [seLoop, hlen] at hm

theorem seLoop_labels_nodup (tid : Nat) :
    ∀ (fuel r mn : Nat) (slots : List Slot),
      ((seLoop tid fuel r mn slots).1.map (fun m => m.bracketPosition)).Nodup := by
  intro fuel
  induction fuel with
  | zero =>
    intro r mn slots
    by_cases h : slots.length > 1 <;> simp [seLoop, h]
  | succ fuel ih =>
    intro r mn slots
    by_cases hlen : slots.length > 1
    · simp only [seLoop, hlen, if_true]
      rcases hre : (seRound tid r mn 0 slots).2 with e | p
      · simpa only using seRound_labels_nodup tid r mn 0 slots
      · simp only [List.map_append, List.nodup_append]
        refine ⟨seRound_labels_nodup tid r mn 0 slots, ih (r + 1) p.2 p.1, ?_⟩
        intro x hx hx'
        rw [List.mem_map] at hx hx'
        obtain ⟨m1, hm1, hpos1⟩ := hx
        obtain ⟨m2, hm2, hpos2⟩ := hx'
        obtain ⟨_, i1, _, hp1⟩ := seRound_label_mem tid r mn 0 slots m1 hm1
        obtain ⟨r2, i2, hle2, _, hp2⟩ := seLoop_label_mem tid fuel (r + 1) p.2 p.1 m2 hm2
        rw [hp1] at hpos1
        rw [hp2] at hpos2
        rw [← hpos1] at hpos2
        injection hpos2 with h h'
        omega
    · simp [seLoop, hlen]

/-! ## Labels of the other builders and of progression (claim C7) -/

theorem rrLoop_labels (tid n : Nat) :
    ∀ (prs : List (TParticipant × TParticipant)) (mn rnd : Nat),
      (rrLoop tid n mn rnd prs).map (fun m => m.bracketPosition) =
        (List.range' mn prs.length).map BPos.RR
  | [], _, _ => rfl
  | (a, b) :: rest, mn, rnd => by
    simp only [rrLoop, List.map_cons, List.length_cons, List.range'_succ,
      List.cons.injEq, true_and]
    exact rrLoop_labels tid n rest (mn + 1) _

theorem swissLoop_label_mem (tid : Nat) :
    ∀ (ps : List TParticipant) (mn pi : Nat), ∀ m ∈ swissLoop tid mn pi ps,
      ∃ i, pi < i ∧ m.bracketPosition = BPos.S 1 i
  | [], _, _ => by intro m hm; simp [swissLoop] at hm
  | [_], _, _ => by intro m hm; simp [swissLoop] at hm
  | a :: b :: rest, mn, pi => by
    intro m hm
    simp only [swissLoop, List.mem_cons] at hm
    rcases hm with rfl | hm
    · exact ⟨pi + 1, Nat.lt_succ_self pi, rfl⟩
    · obtain ⟨i, hi, hpos⟩ := swissLoop_label_mem tid rest (mn + 1) (pi + 1) m hm
      exact ⟨i, by omega, hpos⟩

theorem swissLoop_labels_nodup (tid : Nat) :
    ∀ (ps : List TParticipant) (mn pi : Nat),
      ((swissLoop tid mn pi ps).map (fun m => m.bracketPosition)).Nodup
  | [], _, _ => by simp [swissLoop]
  | [_], _, _ => by simp [swissLoop]
  | a :: b :: rest, mn, pi => by
    simp only [swissLoop, List.map_cons, List.nodup_cons]
    refine ⟨?_, swissLoop_labels_nodup tid rest (mn + 1) (pi + 1)⟩
    intro hmem
    rw [List.mem_map] at hmem
    obtain ⟨m, hm, hpos⟩ := hmem
    obtain ⟨i, hi, hpos'⟩ := swissLoop_label_mem tid rest (mn + 1) (pi + 1) m hm
    rw [hpos'] at hpos
    injection hpos with h h'
    omega

theorem progLoop_label_mem (tid rnd : Nat) :
    ∀ (ws : List WinnerSlot) (mn pi : Nat), ∀ m ∈ progLoop tid rnd mn pi ws,
      m.round = rnd ∧ ∃ i, pi < i ∧ m.bracketPosition = BPos.R rnd i
  | [], _, _ => by intro m hm; simp [progLoop] at hm
  | [_], _, _ => by intro m hm; simp [progLoop] at hm
  | w1 :: w2 :: rest, mn, pi => by
    intro m hm
    simp only [progLoop, List.mem_cons] at hm
    rcases hm with rfl | hm
    · exact ⟨rfl, pi + 1, Nat.lt_succ_self pi, rfl⟩
    · obtain ⟨hr, i, hi, hpos⟩ := progLoop_label_mem tid rnd rest (mn + 1) (pi + 1) m hm
      exact ⟨hr, i, by omega, hpos⟩

theorem progLoop_labels_nodup (tid rnd : Nat) :
    ∀ (ws : List WinnerSlot) (mn pi : Nat),
      ((progLoop tid rnd mn pi ws).map (fun m => m.bracketPosition)).Nodup
  | [], _, _ => by simp [progLoop]
  | [_], _, _ => by simp [progLoop]
  | w1 :: w2 :: rest, mn, pi => by
    simp only [progLoop, List.map_cons, List.nodup_cons]
    refine ⟨?_, progLoop_labels_nodup tid rnd rest (mn + 1) (pi + 1)⟩
    intro hmem
    rw [List.mem_map] at hmem
    obtain ⟨m, hm, hpos⟩ := hmem
    obtain ⟨_, i, hi, hpos'⟩ := progLoop_label_mem tid rnd rest (mn + 1) (pi + 1) m hm
    rw [hpos'] at hpos
    injection hpos with h h'
    omega

theorem le_foldl_max : ∀ (l : List Nat) (a : Nat), a ≤ l.foldl max a
  | [], a => Nat.le_refl a
  | b :: t, a => Nat.le_trans (Nat.le_max_left a b) (le_foldl_max t (max a b))

theorem mem_le_foldl_max : ∀ (l : List Nat) (a x : Nat), x ∈ l → x ≤ l.foldl max a
  | [], _, _, h => absurd h (List.not_mem_nil _)
  | b :: t, a, x, h => by
    rcases List.mem_cons.mp h with rfl | h'
    · exact Nat.le_trans (Nat.le_max_right a x) (le_foldl_max t (max a x))
    · exact mem_le_foldl_max t (max a b) x h'

/-- Every match of a tournament has round at most the current round — the
current round is the maximum stored round. -/
theorem round_le_getCurrentRound (tid : Nat) (db : List Match) (m : Match)
    (hm : m ∈ db) (ht : m.tournament = tid) : m.round ≤ getCurrentRound tid db := by
  have hmem : m ∈ db.filter (fun m => m.tournament == tid) :=
    List.mem_filter.mpr ⟨hm, by simp [ht]⟩
  unfold getCurrentRound
  rcases hf : db.filter (fun m => m.tournament == tid) with _ | ⟨a, l⟩
  · rw [hf] at hmem
    simp at hmem
  · rw [hf] at hmem
    rw [hf]
    have : m.round ∈ (a :: l).map (fun m => m.round) := List.mem_map_of_mem _ hmem
    exact mem_le_foldl_max _ 0 _ this

/-- The matches one `generateNextRound` call creates: none, or the
progression pairing loop's output. -/
theorem generateNextRound_created_cases (tid : Nat) (db : List Match) :
    (generateNextRound tid db).1 = [] ∨
    (generateNextRound tid db).1 =
      progLoop tid (getCurrentRound tid db + 1)
        ((db.filter (fun m => m.tournament == tid)).length + 1) 0
        (collectWinners (db.filter (fun m => m.tournament == tid)) (getCurrentRound tid db)) := by
  unfold generateNextRound
  dsimp only
  split_ifs <;> simp

/-- C7 (amended): matches created by the single-elimination builder and by
round progression carry `R<round>-M<index>` labels consistent with their
round and pairwise distinct per run; the round-robin and Swiss builders label
their matches `RR-M<matchNumber>` and `S1-M<index>` — not of `R<round>-M<i>`
form — pairwise distinct per run; and a progression-created match's label
differs from that of every stored match of the same tournament whose label is
consistent with its round (as all builder-created matches are), because
progression labels use a round strictly beyond the stored maximum. -/
theorem bracketPosition_formats_and_uniqueness :
    (∀ tid ps,
      ((generateSingleEliminationBracket tid ps).1.map (fun m => m.bracketPosition)).Nodup ∧
        ∀ m ∈ (generateSingleEliminationBracket tid ps).1,
          isRLabel m.bracketPosition = true ∧ labelRoundOk m = true) ∧
    (∀ tid ps,
      ((generateRoundRobinBracket tid ps).map (fun m => m.bracketPosition)).Nodup ∧
        ∀ m ∈ generateRoundRobinBracket tid ps, isRLabel m.bracketPosition = false) ∧
    (∀ tid shuffle2 ps,
      ((generateSwissBracket tid shuffle2 ps).map (fun m => m.bracketPosition)).Nodup ∧
        ∀ m ∈ generateSwissBracket tid shuffle2 ps, isRLabel m.bracketPosition = false) ∧
    (∀ tid db,
      ((generateNextRound tid db).1.map (fun m => m.bracketPosition)).Nodup ∧
        ∀ m ∈ (generateNextRound tid db).1,
          isRLabel m.bracketPosition = true ∧ labelRoundOk m = true ∧
          ∀ m' ∈ db, m'.tournament = tid → labelRoundOk m' = true →
            m.bracketPosition ≠ m'.bracketPosition) := by
  refine ⟨?_, ?_, ?_, ?_⟩
  · intro tid ps
    constructor
    · exact seLoop_labels_nodup tid _ 1 1 _
    · intro m hm
      obtain ⟨r', i, _, hr, hpos⟩ := seLoop_label_mem tid _ 1 1 _ m hm
      constructor
      · rw [hpos]
        rfl
      · simp [labelRoundOk, hpos, hr]
  · intro tid ps
    constructor
    · unfold generateRoundRobinBracket
      rw [rrLoop_labels]
      refine List.Nodup.map ?_ (List.nodup_range' _ _)
      intro a b h
      injection h
    · intro m hm
      have hpos : m.bracketPosition ∈
          (generateRoundRobinBracket tid ps).map (fun m => m.bracketPosition) :=
        List.mem_map_of_mem _ hm
      unfold generateRoundRobinBracket at hpos
      rw [rrLoop_labels, List.mem_map] at hpos
      obtain ⟨k, _, hk⟩ := hpos
      rw [← hk]
      rfl
  · intro tid shuffle2 ps
    constructor
    · exact swissLoop_labels_nodup tid _ 1 0
    · intro m hm
      obtain ⟨i, _, hpos⟩ := swissLoop_label_mem tid _ 1 0 m hm
      rw [hpos]
      rfl
  · intro tid db
    constructor
    · rcases generateNextRound_created_cases tid db with h | h <;> rw [h]
      · simp
      · exact progLoop_labels_nodup tid _ _ _ 0
    · intro m hm
      rcases generateNextRound_created_cases tid db with h | h
      · rw [h] at hm
        simp at hm
      · rw [h] at hm
        obtain ⟨hr, i, hi, hpos⟩ := progLoop_label_mem tid _ _ _ 0 m hm
        refine ⟨by rw [hpos]; rfl, by simp [labelRoundOk, hpos, hr], ?_⟩
        intro m' hm' ht' hok' heq
        rw [hpos] at heq
        have hle := round_le_getCurrentRound tid db m' hm' ht'
        unfold labelRoundOk at hok'
        rw [← heq] at hok'
        simp only [beq_iff_eq] at hok'
        omega

/-- C7 witness: the amended theorem's progression clause at `storedRound` —
the first created next-round match's label differs from the first stored
match's label. -/
theorem bracketPosition_uniqueness_witness :
    (nextRoundHeadMatch ∈ (generateNextRound 0 storedRound).1 ∧
      completedMatch 1 1 8 11 12 11 ∈ storedRound ∧
      (completedMatch 1 1 8 11 12 11).tournament = 0 ∧
      labelRoundOk (completedMatch 1 1 8 11 12 11) = true) ∧
    nextRoundHeadMatch.bracketPosition ≠ (completedMatch 1 1 8 11 12 11).bracketPosition :=
  ⟨⟨by decide, by decide, by decide, by decide⟩,
    ((bracketPosition_formats_and_uniqueness.2.2.2 0 storedRound).2 nextRoundHeadMatch
        (by decide)).2.2 (completedMatch 1 1 8 11 12 11) (by decide) (by decide) (by decide)⟩

/-- C7 counterexample: the round-robin builder's very first match is labelled
`RR-M1`, which is not of the claimed `R<round>-M<index>` form. -/
theorem roundRobin_label_not_R_form :
    (generateRoundRobinBracket 0 twoParticipants).map (fun m => m.bracketPosition) =
      [BPos.RR 1] ∧
    isRLabel (BPos.RR 1) = false := by
  decide

/-! ## Round progression (claims C3 and C6) -/

theorem progLoop_participants (tid rnd : Nat) :
    ∀ (ws : List WinnerSlot) (mn pi : Nat),
      (progLoop tid rnd mn pi ws).map (fun m => m.participants) =
        (adjacentPairs ws).map
          (fun q => [⟨some q.1.user, q.1.seed⟩, ⟨some q.2.user, q.2.seed⟩])
  | [], _, _ => rfl
  | [_], _, _ => rfl
  | w1 :: w2 :: rest, mn, pi => by
    simp only [progLoop, adjacentPairs, List.map_cons, List.cons.injEq, true_and]
    exact progLoop_participants tid rnd rest (mn + 1) (pi + 1)

/-- C3 counterexample: `storedRound` is a fully completed current round whose
four winners have stored-order seeds 1, 5, 3, 7.  Progression pairs them in
stored order — (11, 21) and (31, 41) — which differs from the ascending-seed
pairing (11, 31), (21, 41) the claim demands: `generateNextRound` never sorts
winners by seed. -/
theorem nextRound_not_seed_sorted :
    (storedRound.all (fun m => m.status == MStatus.completed) = true) ∧
    getCurrentRound 0 storedRound = 1 ∧
    (collectWinners storedRound 1).length = 4 ∧
    (generateNextRound 0 storedRound).1.map
        (fun m => m.participants.map (fun p => p.user)) ≠
      (specSeedOrderedPairs (collectWinners storedRound 1)).map
        (fun q => [some q.1.user, some q.2.user]) := by
  refine ⟨by decide, by decide, by decide, by decide⟩

/-- C3 (amended): when every match of the current round is completed and at
least 2 winners are collected, `generateNextRound` succeeds and pairs the
winners adjacently in the order their matches are stored (no sorting by
seed), each winner carrying seed = minimum of its source match's participant
seeds, and every created match belongs to the next round. -/
theorem nextRound_pairs_in_stored_order (tid : Nat) (db : List Match)
    (hall : ∀ m ∈ db.filter (fun m => m.tournament == tid),
        m.round = getCurrentRound tid db → m.status = MStatus.completed)
    (h2 : 2 ≤ (collectWinners (db.filter (fun m => m.tournament == tid))
        (getCurrentRound tid db)).length) :
    (generateNextRound tid db).2 =
      Except.ok (ProgressOutcome.nextRound (generateNextRound tid db).1) ∧
    (generateNextRound tid db).1.map (fun m => m.participants) =
      (adjacentPairs (collectWinners (db.filter (fun m => m.tournament == tid))
          (getCurrentRound tid db))).map
        (fun q => [⟨some q.1.user, q.1.seed⟩, ⟨some q.2.user, q.2.seed⟩]) ∧
    ∀ m ∈ (generateNextRound tid db).1, m.round = getCurrentRound tid db + 1 := by
  have hfeq : (db.filter (fun m => m.tournament == tid)).filter
      (fun m => m.round == getCurrentRound tid db && m.status == MStatus.completed) =
      (db.filter (fun m => m.tournament == tid)).filter
        (fun m => m.round == getCurrentRound tid db) := by
    apply List.filter_congr
    intro x hx
    by_cases hr : x.round = getCurrentRound tid db
    · have hc := hall x hx hr
      simp [hr, hc]
    · simp [hr]
  unfold generateNextRound
  dsimp only
  rw [hfeq]
  simp only [bne_self_eq_false, Bool.false_eq_true, if_false]
  have hnot : ¬ ((collectWinners (db.filter (fun m => m.tournament == tid))
      (getCurrentRound tid db)).length < 2) := by omega
  rw [if_neg hnot]
  refine ⟨rfl, ?_, ?_⟩
  · exact progLoop_participants tid _ _ _ 0
  · intro m hm
    exact (progLoop_label_mem tid _ _ _ 0 m hm).1

/-- C3 witness: the amended theorem at the concrete completed round
`storedRound`. -/
theorem nextRound_pairs_in_stored_order_witness :
    (∀ m ∈ storedRound.filter (fun m => m.tournament == 0),
        m.round = getCurrentRound 0 storedRound → m.status = MStatus.completed) ∧
    2 ≤ (collectWinners (storedRound.filter (fun m => m.tournament == 0))
        (getCurrentRound 0 storedRound)).length ∧
    ((generateNextRound 0 storedRound).2 =
        Except.ok (ProgressOutcome.nextRound (generateNextRound 0 storedRound).1) ∧
      (generateNextRound 0 storedRound).1.map (fun m => m.participants) =
        (adjacentPairs (collectWinners (storedRound.filter (fun m => m.tournament == 0))
            (getCurrentRound 0 storedRound))).map
          (fun q => [⟨some q.1.user, q.1.seed⟩, ⟨some q.2.user, q.2.seed⟩]) ∧
      ∀ m ∈ (generateNextRound 0 storedRound).1,
        m.round = getCurrentRound 0 storedRound + 1) :=
  ⟨by decide, by decide,
    nextRound_pairs_in_stored_order 0 storedRound (by decide) (by decide)⟩

/-- C6: when some match of the current round is not completed,
`generateNextRound` fails with the round-incomplete error and creates
nothing. -/
theorem generateNextRound_round_incomplete (tid : Nat) (db : List Match) (m : Match)
    (hm : m ∈ db) (ht : m.tournament = tid) (hr : m.round = getCurrentRound tid db)
    (hs : m.status ≠ MStatus.completed) :
    generateNextRound tid db =
      ([], Except.error "Not all matches in current round are completed") := by
  have hmem : m ∈ db.filter (fun x => x.tournament == tid) :=
    List.mem_filter.mpr ⟨hm, by simp [ht]⟩
  have hmem2 : m ∈ (db.filter (fun x => x.tournament == tid)).filter
      (fun x => x.round == getCurrentRound tid db) :=
    List.mem_filter.mpr ⟨hmem, by simp [hr]⟩
  have hswap : (db.filter (fun x => x.tournament == tid)).filter
      (fun x => x.round == getCurrentRound tid db && x.status == MStatus.completed) =
      ((db.filter (fun x => x.tournament == tid)).filter
        (fun x => x.round == getCurrentRound tid db)).filter
        (fun x => x.status == MStatus.completed) := by
    simp only [List.filter_filter]
    apply List.filter_congr
    intro x _
    rw [Bool.and_comm (x.round == getCurrentRound tid db) (x.status == MStatus.completed)]
    rw [Bool.and_assoc]
  have hlt : ((db.filter (fun x => x.tournament == tid)).filter
      (fun x => x.round == getCurrentRound tid db &&
        x.status == MStatus.completed)).length <
      ((db.filter (fun x => x.tournament == tid)).filter
        (fun x => x.round == getCurrentRound tid db)).length := by
    rw [hswap]
    rw [List.length_filter_lt_length_iff_exists]
    exact ⟨m, hmem2, by simpa using hs⟩
  unfold generateNextRound
  dsimp only
  rw [if_pos (bne_iff_ne.mpr (Nat.ne_of_lt hlt))]

/-- C6 witness: the failure at the concrete round `unfinishedRound`, whose
second match is still ongoing. -/
theorem generateNextRound_round_incomplete_witness :
    (ongoingMatch ∈ unfinishedRound ∧ ongoingMatch.tournament = 0 ∧
      ongoingMatch.round = getCurrentRound 0 unfinishedRound ∧
      ongoingMatch.status ≠ MStatus.completed) ∧
    generateNextRound 0 unfinishedRound =
      ([], Except.error "Not all matches in current round are completed") :=
  ⟨⟨by decide, by decide, by decide, by decide⟩,
    generateNextRound_round_incomplete 0 unfinishedRound ongoingMatch
      (by decide) (by decide) (by decide) (by decide)⟩

/-! ## Bracket generation precondition (claim C5) -/

/-- C5: with fewer than 2 confirmed participants, `generateBracket` fails
with the insufficient-participants error having created no match and not
having written the tournament's rounds. -/
theorem generateBracket_insufficient_participants
    (shuffle shuffle2 : List TParticipant → List TParticipant) (t : Tournament)
    (h : (t.participants.filter (fun p => p.status == PStatus.confirmed)).length < 2) :
    generateBracket shuffle shuffle2 t =
      { created := [], savedRounds := none,
        result := Except.error
          "At least 2 confirmed participants required to generate bracket" } := by
  unfold generateBracket
  dsimp only
  rw [if_pos h]

/-- C5 witness: the theorem at a tournament with one confirmed and one merely
registered participant. -/
theorem generateBracket_insufficient_participants_witness :
    ((soloTournament.participants.filter
        (fun p => p.status == PStatus.confirmed)).length < 2) ∧
    generateBracket (fun l => l) (fun l => l) soloTournament =
      { created := [], savedRounds := none,
        result := Except.error
          "At least 2 confirmed participants required to generate bracket" } :=
  ⟨by decide,
    generateBracket_insufficient_participants (fun l => l) (fun l => l) soloTournament
      (by decide)⟩

/-! ## Concurrent start (claim C8) -/

/-- C8: the start route has no concurrency control — each caller checks
`status === 'ready'` on its own loaded snapshot and saves unconditionally.
In the interleaving where both callers load before either saves (schedule
`[1, 2, 1, 2]`), BOTH Start calls succeed, `startedAt` is written twice and
two system chat entries are appended; no caller observes a conflict.  Under
the sequential interleaving `[1, 1, 2, 2]` the second caller does observe
"Match is not ready to start", confirming the model agrees with the source
when no race occurs. -/
theorem start_race_double_success :
    (runRace readyStartRace [true, false, true, false]).c1.result =
      some (Except.ok ()) ∧
    (runRace readyStartRace [true, false, true, false]).c2.result =
      some (Except.ok ()) ∧
    (runRace readyStartRace [true, false, true, false]).db.startWrites = 2 ∧
    (runRace readyStartRace [true, false, true, false]).db.systemChat = 2 ∧
    (runRace readyStartRace [true, true, false, false]).c2.result =
      some (Except.error "Match is not ready to start") ∧
    (runRace readyStartRace [true, true, false, false]).db.startWrites = 1 := by
  refine ⟨rfl, rfl, rfl, rfl, rfl, rfl⟩

/-! ## Room registry (claims C9 and C10) -/

theorem updateRoom_self : ∀ (rooms : List (Nat × List Nat)) (g : Nat) (e : Nat × List Nat),
    rooms.find? (fun x => x.1 == g) = some e → updateRoom rooms g e.2 = rooms
  | [], _, _, h => by simp at h
  | (k, v) :: rest, g, e, h => by
    simp only [List.find?] at h
    by_cases hk : (k == g) = true
    · rw [hk] at h
      simp only [Option.some.injEq] at h
      unfold updateRoom
      rw [if_pos hk, ← h]

    · rw [Bool.not_eq_true] at hk
      rw [hk] at h
      unfold updateRoom
      rw [if_neg (by simp [hk])]
      rw [updateRoom_self rest g e h]

theorem roomMembers_updateRoom_ne :
    ∀ (rooms : List (Nat × List Nat)) (g g' : Nat), g ≠ g' → ∀ v',
      roomMembers (updateRoom rooms g v') g' = roomMembers rooms g'
  | [], _, _, _, _ => rfl
  | (k, v) :: rest, g, g', hne, v' => by
    unfold updateRoom
    by_cases hk : (k == g) = true
    · rw [if_pos hk]
      have hkg : k = g := by simpa using hk
      have hkg' : (k == g') = false := by simp [hkg, hne]
      unfold roomMembers
      simp only [List.find?, hkg']
    · rw [if_neg hk]
      unfold roomMembers
      by_cases hk' : (k == g') = true
      · simp only [List.find?, hk']
      · rw [Bool.not_eq_true] at hk'
        simp only [List.find?, hk']
        exact roomMembers_updateRoom_ne rest g g' hne v'

theorem roomMembers_updateRoom_eq :
    ∀ (rooms : List (Nat × List Nat)) (g : Nat) (e : Nat × List Nat) (v' : List Nat),
      rooms.find? (fun x => x.1 == g) = some e →
      roomMembers (updateRoom rooms g v') g = v'
  | [], _, _, _, h => by simp at h
  | (k, v) :: rest, g, e, v', h => by
    simp only [List.find?] at h
    by_cases hk : (k == g) = true
    · unfold updateRoom
      rw [if_pos hk]
      unfold roomMembers
      simp only [List.find?, hk]
    · rw [Bool.not_eq_true] at hk
      rw [hk] at h
      unfold updateRoom
      rw [if_neg (by simp [hk])]
      unfold roomMembers
      simp only [List.find?, hk]
      exact roomMembers_updateRoom_eq rest g e v' h

theorem mem_setAdd_of_mem {s : List Nat} {x u : Nat} (h : x ∈ s) : x ∈ setAdd s u := by
  unfold setAdd
  split_ifs <;> simp [h]

theorem setAdd_ne_nil (s : List Nat) (u : Nat) : setAdd s u ≠ [] := by
  unfold setAdd
  split_ifs with h
  · intro hnil
    rw [hnil] at h
    simp at h
  · simp

/-- C9: joining a match or tournament room is idempotent — a session already
in the group leaves the registry exactly as it was — and additive — joining
never removes any existing member of any group. -/
theorem joinRoom_idempotent_and_additive :
    (∀ rooms g u, u ∈ roomMembers rooms g → joinRoom rooms g u = rooms) ∧
    (∀ rooms g u g' u', u' ∈ roomMembers rooms g' →
      u' ∈ roomMembers (joinRoom rooms g u) g') := by
  constructor
  · intro rooms g u h
    unfold joinRoom
    rcases hf : rooms.find? (fun x => x.1 == g) with _ | e
    · unfold roomMembers at h
      rw [hf] at h
      simp at h
    · rw [hf]
      dsimp only
      have hmem : u ∈ e.2 := by
        unfold roomMembers at h
        rw [hf] at h
        exact h
      have hsa : setAdd e.2 u = e.2 := by
        unfold setAdd
        rw [if_pos hmem]
      rw [hsa]
      exact updateRoom_self rooms g e hf
  · intro rooms g u g' u' h
    have hsome : ∃ e', rooms.find? (fun x => x.1 == g') = some e' ∧ u' ∈ e'.2 := by
      unfold roomMembers at h
      rcases hf2 : rooms.find? (fun x => x.1 == g') with _ | e'
      · rw [hf2] at h
        simp at h
      · rw [hf2] at h
        exact ⟨e', hf2, h⟩
    obtain ⟨e', hf2, hu⟩ := hsome
    unfold joinRoom
    rcases hf : rooms.find? (fun x => x.1 == g) with _ | e
    · rw [hf]
      dsimp only
      unfold roomMembers
      rw [List.find?_append, hf2]
      simpa using hu
    · rw [hf]
      dsimp only
      by_cases hg : g = g'
      · subst hg
        rw [roomMembers_updateRoom_eq rooms g e (setAdd e.2 u) hf]
        have : u' ∈ e.2 := by
          rw [hf] at hf2
          injection hf2 with h'
          rw [h']
          exact hu
        exact mem_setAdd_of_mem this
      · rw [roomMembers_updateRoom_ne rooms g g' hg _]
        exact h

/-- C9 witness: the theorem's two clauses at the concrete registry
`demoRooms`. -/
theorem joinRoom_idempotent_and_additive_witness :
    (1 ∈ roomMembers demoRooms 5 ∧ joinRoom demoRooms 5 1 = demoRooms) ∧
    (3 ∈ roomMembers demoRooms 7 ∧ 3 ∈ roomMembers (joinRoom demoRooms 5 9) 7) :=
  ⟨⟨by decide, joinRoom_idempotent_and_additive.1 demoRooms 5 1 (by decide)⟩,
    ⟨by decide, joinRoom_idempotent_and_additive.2 demoRooms 5 9 7 3 (by decide)⟩⟩

theorem mem_updateRoom :
    ∀ (rooms : List (Nat × List Nat)) (g : Nat) (v' : List Nat) (e' : Nat × List Nat),
      e' ∈ updateRoom rooms g v' → e' ∈ rooms ∨ e'.2 = v'
  | [], _, _, _, h => by simp [updateRoom] at h
  | (k, v) :: rest, g, v', e', h => by
    unfold updateRoom at h
    by_cases hk : (k == g) = true
    · rw [if_pos hk] at h
      rcases List.mem_cons.mp h with rfl | h'
      · right
        rfl
      · left
        exact List.mem_cons_of_mem _ h'
    · rw [if_neg hk] at h
      rcases List.mem_cons.mp h with rfl | h'
      · left
        exact List.mem_cons_self _ _
      · rcases mem_updateRoom rest g v' e' h' with h'' | h''
        · left
          exact List.mem_cons_of_mem _ h''
        · right
          exact h''

theorem mem_deleteRoom :
    ∀ (rooms : List (Nat × List Nat)) (g : Nat) (e' : Nat × List Nat),
      e' ∈ deleteRoom rooms g → e' ∈ rooms
  | [], _, _, h => by simp [deleteRoom] at h
  | (k, v) :: rest, g, e', h => by
    unfold deleteRoom at h
    by_cases hk : (k == g) = true
    · rw [if_pos hk] at h
      exact List.mem_cons_of_mem _ h
    · rw [if_neg hk] at h
      rcases List.mem_cons.mp h with rfl | h'
      · exact List.mem_cons_self _ _
      · exact List.mem_cons_of_mem _ (mem_deleteRoom rest g e' h')

theorem noEmptyRooms_joinRoom (rooms : List (Nat × List Nat)) (g u : Nat)
    (h : noEmptyRooms rooms) : noEmptyRooms (joinRoom rooms g u) := by
  intro e' he'
  unfold joinRoom at he'
  rcases hf : rooms.find? (fun x => x.1 == g) with _ | e
  · rw [hf] at he'
    rcases List.mem_append.mp he' with h' | h'
    · exact h e' h'
    · simp only [List.mem_singleton] at h'
      rw [h']
      simp
  · rw [hf] at he'
    rcases mem_updateRoom rooms g (setAdd e.2 u) e' he' with h' | h'
    · exact h e' h'
    · rw [h']
      exact setAdd_ne_nil e.2 u

theorem noEmptyRooms_leaveRoom (rooms : List (Nat × List Nat)) (g u : Nat)
    (h : noEmptyRooms rooms) : noEmptyRooms (leaveRoom rooms g u) := by
  intro e' he'
  unfold leaveRoom at he'
  rcases hf : rooms.find? (fun x => x.1 == g) with _ | e
  · rw [hf] at he'
    exact h e' he'
  · rw [hf] at he'
    dsimp only at he'
    by_cases hnil : e.2.erase u = []
    · rw [if_pos hnil] at he'
      exact h e' (mem_deleteRoom rooms g e' he')
    · rw [if_neg hnil] at he'
      rcases mem_updateRoom rooms g (e.2.erase u) e' he' with h' | h'
      · exact h e' h'
      · rw [h']
        exact hnil

theorem noEmptyRooms_disconnectRooms (rooms : List (Nat × List Nat)) (u : Nat)
    (h : noEmptyRooms rooms) : noEmptyRooms (disconnectRooms rooms u) := by
  intro e' he'
  unfold disconnectRooms at he'
  rw [List.mem_filterMap] at he'
  obtain ⟨a, ha, hfa⟩ := he'
  by_cases hu : u ∈ a.2
  · rw [if_pos hu] at hfa
    dsimp only at hfa
    by_cases hnil : a.2.erase u = []
    · rw [if_pos hnil] at hfa
      simp at hfa
    · rw [if_neg hnil] at hfa
      injection hfa with hfa
      rw [← hfa]
      exact hnil
  · rw [if_neg hu] at hfa
    injection hfa with hfa
    rw [← hfa]
    exact h a ha

theorem registryInv_step (r : Registry) (e : SocketEvent) (h : registryInv r) :
    registryInv (stepEvent r e) := by
  cases e with
  | joinMatch u mid => exact ⟨noEmptyRooms_joinRoom _ _ _ h.1, h.2⟩
  | leaveMatch u mid => exact ⟨noEmptyRooms_leaveRoom _ _ _ h.1, h.2⟩
  | joinTournament u tid => exact ⟨h.1, noEmptyRooms_joinRoom _ _ _ h.2⟩
  | disconnect u =>
    exact ⟨noEmptyRooms_disconnectRooms _ _ h.1, noEmptyRooms_disconnectRooms _ _ h.2⟩

theorem registryInv_foldl :
    ∀ (evs : List SocketEvent) (r : Registry), registryInv r →
      registryInv (evs.foldl stepEvent r)
  | [], _, h => h
  | e :: evs, r, h => registryInv_foldl evs (stepEvent r e) (registryInv_step r e h)

/-- C10: after any sequence of join-match, leave-match, join-tournament and
disconnect events from the initial empty registries, every room entry of both
maps has a non-empty member set — an entry whose last member leaves or
disconnects is deleted, and joins only ever produce non-empty entries. -/
theorem registry_retains_no_empty_group (evs : List SocketEvent) :
    registryInv (runEvents evs) :=
  registryInv_foldl evs initRegistry ⟨fun _ h => absurd h (List.not_mem_nil _), fun _ h => absurd h (List.not_mem_nil _)⟩

end TournamentEngine
